import Mathlib

/-!
Shallow embedding of the lift-simulation repository.

The authoritative variant is `src/lift-simulation/script.js` (the
`LiftController` object); the sibling variants
`src/lift-simulation/src/script.js` (second half: `findBestLift` with
K = 0.6 and no direction bonus, `assignLift` sorting ascending only) and
`src/unnamed/part_001` (`assignLift` skipping busy lifts) are embedded
where a claim cites them.

JS numbers are modelled as exact values (`Int` for floors, `ℚ` for
dispatch scores, `Nat` for durations).  Comparisons between *distinct*
exact scores (gap at least 1/10) coincide with the comparisons the JS
engine performs on their binary64 images, but scores that are *equal*
exactly can have different binary64 images (7*0.8 > 4 + 2*0.8 in
binary64 although both equal 5.6 exactly), so the engine's tie behaviour
differs from exact arithmetic.  The dispatcher is therefore embedded
twice: `liftScore` is the exact-arithmetic idealization, and
`liftScoreF` evaluates the same operations in binary64, with `rnd`
rounding every intermediate result to the nearest double (ties to
even).
-/

namespace LiftSim

/-- The direction strings `"up" | "down" | "idle"` used by the simulator. -/
inductive Dir
  | up
  | down
  | idle
deriving DecidableEq, Repr

/-- Where the asynchronous `process` loop of a lift is currently suspended.
`off` means the loop is not running; the other constructors carry the floor
being served and the milliseconds remaining in the pending `wait`.  (The JS
objects have no such field: it models the position of the suspended
coroutine created by `process`, script.js 98-121.) -/
inductive Phase
  | off
  | travel (target : Int) (rem : Nat)
  | doorOpen (target : Int) (rem : Nat)
  | doorClose (target : Int) (rem : Nat)
deriving DecidableEq, Repr

/-- The lift record of `createLift` (script.js 11-28); the `dom` handles are
presentation-layer state and are omitted. -/
structure Lift where
  id : Nat
  currentFloor : Int
  queue : List Int
  direction : Dir
  processing : Bool
  phase : Phase
deriving DecidableEq, Repr

/-- `createLift(id)` (script.js 11-28). -/
def createLift (i : Nat) : Lift :=
  { id := i, currentFloor := 0, queue := [], direction := Dir.idle,
    processing := false, phase := Phase.off }

/-- A floor call, `{ floor, direction, createdAt }` (script.js 40). -/
structure Call where
  floor : Int
  direction : Dir
  createdAt : Nat
deriving DecidableEq, Repr

/-- Identity key of a call.  The source keys its `Map` by the string
`` `${floor}-${direction}` ``; distinct (floor, direction) pairs always give
distinct strings (decimal rendering of the floor, then `-`, then the
direction word), so the pair itself is a faithful key. -/
abbrev CallKey := Int × Dir

/-- `AppState.activeCalls`: a JS `Map`, i.e. an insertion-ordered collection
of key/value entries with pairwise distinct keys. -/
abbrev Registry := List (CallKey × Call)

/-- The parts of `AppState` (script.js 3-9) that the controller logic
reads or writes; the DOM-related fields are omitted. -/
structure AppState where
  lifts : List Lift
  activeCalls : Registry
deriving DecidableEq, Repr

/-- `LiftController.FLOOR_TRAVEL_TIME` (script.js 33), in milliseconds. -/
def FLOOR_TRAVEL_TIME : Nat := 1500

/-- `LiftController.DOOR_TIME` (script.js 34), in milliseconds. -/
def DOOR_TIME : Nat := 1800

/-- `queue.sort((a, b) => a - b)` (script.js 90).  A JS sort with this
comparator produces the ascending rearrangement of the array; on integers
the sorted permutation is unique, so any correct sorting algorithm gives
the same list. -/
def sortAsc (l : List Int) : List Int := List.insertionSort (· ≤ ·) l

/-- `queue.sort((a, b) => b - a)` (script.js 91), the descending
rearrangement. -/
def sortDesc (l : List Int) : List Int := List.insertionSort (· ≥ ·) l

/-- `lift.queue.length ? lift.queue[lift.queue.length - 1] : lift.currentFloor`
(script.js 57-59): the last queued stop, or the current floor when the
queue is empty. -/
def lastStopOf (lift : Lift) : Int :=
  match lift.queue.getLast? with
  | some f => f
  | none => lift.currentFloor

/-- The score `distance + queuePenalty + directionBonus` computed for one
lift by `findBestLift` (script.js 56-74), idealized in exact arithmetic:
K = 0.8, direction bonus -1.5 when the lift's direction equals the call's
direction, is not `"idle"`, and the called floor lies ahead of the lift in
that direction.  The program computes in binary64, which orders distinct
exact scores identically (their gap, at least 1/10, dwarfs the rounding
error) but can order *equal* exact scores either way; `liftScoreF` below
is the bit-accurate binary64 evaluation. -/
def liftScore (call : Call) (lift : Lift) : ℚ :=
  |(lastStopOf lift : ℚ) - (call.floor : ℚ)| + (lift.queue.length : ℚ) * (8 / 10) +
    (if lift.direction = call.direction ∧ lift.direction ≠ Dir.idle then
      (if (call.direction = Dir.up ∧ lift.currentFloor ≤ call.floor) ∨
          (call.direction = Dir.down ∧ call.floor ≤ lift.currentFloor) then
        -(3 / 2) else 0)
     else 0)

/-- The `forEach` accumulator of `findBestLift` (script.js 52-83).  `best`
and `bestScore` start as `null` / `Infinity` and are always updated
together (any finite score satisfies `score < Infinity`), so the pair is
modelled as one optional value. -/
def bestAux (f : Lift → ℚ) : List Lift → Nat → Option (Nat × ℚ) → Option (Nat × ℚ)
  | [], _, acc => acc
  | l :: ls, i, acc =>
    match acc with
    | none => bestAux f ls (i + 1) (some (i, f l))
    | some (bi, bs) =>
      if f l < bs then bestAux f ls (i + 1) (some (i, f l))
      else bestAux f ls (i + 1) (some (bi, bs))

/-- `LiftController.findBestLift(call)` (script.js 52-83): index of the
first lift attaining the strictly smallest score, `null` when there are no
lifts. -/
def findBestLift (call : Call) (lifts : List Lift) : Option Nat :=
  (bestAux (liftScore call) lifts 0 none).map Prod.fst

/-- Score of the `findBestLift` variant at src/lift-simulation/src/script.js
403-425: K = 0.6 and no direction bonus. -/
def liftScoreV2 (targetFloor : Int) (lift : Lift) : ℚ :=
  |(lastStopOf lift : ℚ) - (targetFloor : ℚ)| + (lift.queue.length : ℚ) * (6 / 10)

/-- `findBestLift(targetFloor)` of src/lift-simulation/src/script.js
403-425, including its explicit `if (!AppState.lifts.length) return null`
guard. -/
def findBestLiftV2 (targetFloor : Int) (lifts : List Lift) : Option Nat :=
  if lifts.length = 0 then none
  else (bestAux (liftScoreV2 targetFloor) lifts 0 none).map Prod.fst

/-- One pass of the `process` while-loop (script.js 98-121) from loop entry
to the next timer suspension: pop the head floor, set `direction`
(script.js 104-106), then either enter the travel wait of `moveTo`
(script.js 123-134, skipped when the distance is 0) or go straight to the
first door wait of `doors` (script.js 140-145).  With an empty queue the
loop exits: `direction = "idle"`, `processing = false` (script.js 116-117). -/
def startIteration (c : Lift) : Lift :=
  match c.queue with
  | [] => { c with direction := Dir.idle, processing := false, phase := Phase.off }
  | t :: rest =>
    let dir := if t > c.currentFloor then Dir.up
               else if t < c.currentFloor then Dir.down else Dir.idle
    let dist := (t - c.currentFloor).natAbs
    if dist = 0 then
      { c with queue := rest, direction := dir, phase := Phase.doorOpen t DOOR_TIME }
    else
      { c with queue := rest, direction := dir,
               phase := Phase.travel t (dist * FLOOR_TRAVEL_TIME) }

/-- Timer expiry of the current phase: the code that runs when the pending
`await` resolves, up to the next suspension.  Travel completion sets
`currentFloor = target` (script.js 136) and enters the door-open wait;
door-open completion enters the door-close wait (script.js 145-151);
door-close completion re-enters the while loop.  The loop's registry side
effect `clearCalls(target)` (script.js 113) acts on the shared `AppState`
and is modelled by `clearCalls` / `resumeDoorClose` below. -/
def completePhase (c : Lift) : Lift :=
  match c.phase with
  | Phase.off => c
  | Phase.travel t _ => { c with currentFloor := t, phase := Phase.doorOpen t DOOR_TIME }
  | Phase.doorOpen t _ => { c with phase := Phase.doorClose t DOOR_TIME }
  | Phase.doorClose _ _ => startIteration c

/-- Time passing inside a phase: only the remaining wait shrinks.  In
particular `currentFloor` is untouched while the car is in transit
(`moveTo` assigns it only after its `await`, script.js 134-136). -/
def advanceTime (d : Nat) (c : Lift) : Lift :=
  match c.phase with
  | Phase.off => c
  | Phase.travel t r => { c with phase := Phase.travel t (r - d) }
  | Phase.doorOpen t r => { c with phase := Phase.doorOpen t (r - d) }
  | Phase.doorClose t r => { c with phase := Phase.doorClose t (r - d) }

/-- `LiftController.assignCall(lift, call)` (script.js 85-96): push the
floor unless already queued, re-sort ascending, re-sort descending when
the lift's direction is `"down"`, and start `process` when it is not
already running (its synchronous prefix is `startIteration`, with
`processing = true` set at entry, script.js 99). -/
def assignCall (lift : Lift) (floor : Int) : Lift :=
  let q := if lift.queue.contains floor then lift.queue else lift.queue ++ [floor]
  let q2 := sortAsc q
  let q3 := if lift.direction = Dir.down then sortDesc q2 else q2
  let l2 : Lift := { lift with queue := q3 }
  if l2.processing then l2 else startIteration { l2 with processing := true }

/-- `LiftController.assignLift(lift, floor)` of
src/lift-simulation/src/script.js 427-438: like `assignCall` but the queue
is always re-sorted ascending, with no descending branch for a
down-moving lift. -/
def assignLift (lift : Lift) (floor : Int) : Lift :=
  let q := if lift.queue.contains floor then lift.queue else lift.queue ++ [floor]
  let l2 : Lift := { lift with queue := sortAsc q }
  if l2.processing then l2 else startIteration { l2 with processing := true }

/-- `AppState.activeCalls.has(key)` (script.js 38). -/
def hasKey (reg : Registry) (k : CallKey) : Bool :=
  reg.any fun e => decide (e.1 = k)

/-- Number of registry entries carrying a given key. -/
def countKey (reg : Registry) (k : CallKey) : Nat :=
  (reg.filter fun e => decide (e.1 = k)).length

/-- `AppState.activeCalls.delete(k)` (script.js 162).  A JS `Map` holds at
most one entry per key, so deleting a key removes every entry carrying it. -/
def deleteKey (reg : Registry) (k : CallKey) : Registry :=
  reg.filter fun e => decide (e.1 ≠ k)

/-- `LiftController.clearCalls(floor)` (script.js 154-164): collect the keys
of all active calls whose `floor` matches, then delete each collected key. -/
def clearCalls (floor : Int) (reg : Registry) : Registry :=
  let removes := (reg.filter fun e => decide (e.2.floor = floor)).map Prod.fst
  removes.foldl deleteKey reg

/-- In-place update of `AppState.lifts[i]` by `assignCall` (script.js 49). -/
def updateLift : List Lift → Nat → Int → List Lift
  | [], _, _ => []
  | l :: ls, 0, f => assignCall l f :: ls
  | l :: ls, Nat.succ n, f => l :: updateLift ls n f

/-- `LiftController.requestPickup(floor, direction)` (script.js 36-50):
return unchanged when the key is already active; otherwise register the
call (a `Map.set` with a fresh key appends the entry), then dispatch it to
`findBestLift`'s choice, if any.  `Date.now()` is passed in as `now`. -/
def requestPickup (floor : Int) (direction : Dir) (now : Nat) (s : AppState) : AppState :=
  if hasKey s.activeCalls (floor, direction) then s
  else
    let call : Call := { floor := floor, direction := direction, createdAt := now }
    let s1 : AppState := { s with activeCalls := s.activeCalls ++ [((floor, direction), call)] }
    match findBestLift call s1.lifts with
    | none => s1
    | some i => { s1 with lifts := updateLift s1.lifts i floor }

/-- `resetSimulation()` (script.js 477-487): `AppState.activeCalls.clear()`
and `AppState.lifts = []`.  No timer is cancelled: the source never stores
or clears the timeouts created by `wait`, so suspended `process` loops keep
running against the same shared `AppState`. -/
def resetSimulation (s : AppState) : AppState :=
  { s with activeCalls := [], lifts := [] }

/-- Resumption of a suspended `process` loop whose door-close wait expires:
`clearCalls(target)` runs against the shared registry (script.js 113) and
the loop re-enters (script.js 101).  The lift object itself need not be in
`AppState.lifts` any more — the coroutine closed over it. -/
def resumeDoorClose (zombie : Lift) (s : AppState) : Lift × AppState :=
  match zombie.phase with
  | Phase.doorClose t _ =>
    (startIteration zombie, { s with activeCalls := clearCalls t s.activeCalls })
  | _ => (zombie, s)

/-- Per-lift states reachable from a fresh `createLift` through call
assignments, timer expiries and time passing. -/
inductive Reach : Lift → Prop
  | init (i : Nat) : Reach (createLift i)
  | assign {c : Lift} (f : Int) (h : Reach c) : Reach (assignCall c f)
  | complete {c : Lift} (h : Reach c) : Reach (completePhase c)
  | advance {c : Lift} (d : Nat) (h : Reach c) : Reach (advanceTime d c)

/-- The lift objects of src/unnamed/part_001 (lines 85-89); the DOM
`element` is omitted. -/
structure SLift where
  currentFloor : Int
  busy : Bool
deriving DecidableEq, Repr

/-- The selection loop inside `assignLift` of src/unnamed/part_001
(lines 112-124): busy lifts are skipped, the closest remaining lift wins
(strict improvement, so the first of a tie).  `best` / `minDist` start as
`null` / `Infinity` and are updated together. -/
def part1SelectAux (target : Int) : List SLift → Option (SLift × Nat) → Option (SLift × Nat)
  | [], acc => acc
  | l :: ls, acc =>
    if l.busy then part1SelectAux target ls acc
    else
      let dist := (l.currentFloor - target).natAbs
      match acc with
      | none => part1SelectAux target ls (some (l, dist))
      | some (b, m) =>
        if dist < m then part1SelectAux target ls (some (l, dist))
        else part1SelectAux target ls (some (b, m))

/-- The lift chosen by `assignLift` of src/unnamed/part_001, or `none` when
the loop leaves `best` as `null` (lines 126-129 then re-queue the call). -/
def part1SelectLift (lifts : List SLift) (target : Int) : Option SLift :=
  (part1SelectAux target lifts none).map Prod.fst

/-- The dispatch score exactly as the specification words it (§4.2): the
direction bonus applies "when the car's current direction matches the
call's direction AND the target floor lies ahead of the car in that
direction".  (Lying ahead in direction `d` already forces `d` to be `up`
or `down`, which is why this matches the source's extra `!== "idle"`
test.) -/
def specScore (call : Call) (lift : Lift) : ℚ :=
  |(lastStopOf lift : ℚ) - (call.floor : ℚ)| + (lift.queue.length : ℚ) * (8 / 10) +
    (if lift.direction = call.direction ∧
        ((call.direction = Dir.up ∧ lift.currentFloor ≤ call.floor) ∨
         (call.direction = Dir.down ∧ call.floor ≤ lift.currentFloor)) then
      -(3 / 2) else 0)

/-- The car is between the start and the end of a travel wait. -/
def isMidTravel (c : Lift) : Bool :=
  match c.phase with
  | Phase.travel _ _ => true
  | _ => false

/-- The car is inside its door-open/door-close cycle. -/
def isMidDoor (c : Lift) : Bool :=
  match c.phase with
  | Phase.doorOpen _ _ => true
  | Phase.doorClose _ _ => true
  | _ => false

/-- Round a nonnegative rational to the nearest integer, ties to even
(`x.num / x.den` truncates, which is the floor for the nonnegative inputs
this is used on). -/
def rhe (x : ℚ) : Int :=
  let f : Int := x.num / (x.den : Int)
  if x - (f : ℚ) < 1 / 2 then f
  else if (1 : ℚ) / 2 < x - (f : ℚ) then f + 1
  else if f % 2 = 0 then f else f + 1

/-- `2^e` as a rational, for an integer exponent. -/
def pow2 (e : Int) : ℚ :=
  if 0 ≤ e then ((2 ^ e.toNat : Nat) : ℚ) else 1 / ((2 ^ (-e).toNat : Nat) : ℚ)

/-- Binary digit count of a natural number, recursing on a fuel bound (at
least the bit count, e.g. the number itself) so that it evaluates by
structural reduction. -/
def bitsAux : Nat → Nat → Nat
  | 0, _ => 0
  | _ + 1, 0 => 0
  | fuel + 1, n + 1 => bitsAux fuel ((n + 1) / 2) + 1

/-- Binary digit count: `⌊log2 n⌋ + 1` for positive `n`, `0` for `0`. -/
def bits (n : Nat) : Nat := bitsAux n n

/-- Round a positive rational to the nearest binary64 value: scale into the
binade `[2^52, 2^53)` and round the 53-bit significand to nearest, ties to
even.  (`bits num - bits den` is `⌊log2 a⌋` up to one, fixed by the
`2^c ≤ a` test.)  Exponent overflow and subnormals are not modelled; the
simulator's scores live far inside the normal range. -/
def rndPos (a : ℚ) : ℚ :=
  let c : Int := (bits a.num.toNat : Int) - (bits a.den : Int)
  let e0 : Int := if pow2 c ≤ a then c else c - 1
  let e : Int := e0 - 52
  (rhe (a * pow2 (-e)) : ℚ) * pow2 e

/-- The value of the binary64 double nearest to `q` (ties to even): the
result of every arithmetic operation the JS engine performs. -/
def rnd (q : ℚ) : ℚ :=
  if q = 0 then 0 else if q < 0 then -rndPos (-q) else rndPos q

/-- Binary64 evaluation of the `findBestLift` score (script.js 56-74),
rounding exactly where the engine does: the literal `0.8` is itself
rounded, the multiplication and each left-associated addition round their
results, while `Math.abs` of a difference of (exactly representable)
small integers and the exact literal `-1.5` do not round. -/
def liftScoreF (call : Call) (lift : Lift) : ℚ :=
  let distance : ℚ := rnd |(lastStopOf lift : ℚ) - (call.floor : ℚ)|
  let queuePenalty : ℚ := rnd ((lift.queue.length : ℚ) * rnd (8 / 10))
  let directionBonus : ℚ :=
    if lift.direction = call.direction ∧ lift.direction ≠ Dir.idle then
      (if (call.direction = Dir.up ∧ lift.currentFloor ≤ call.floor) ∨
          (call.direction = Dir.down ∧ call.floor ≤ lift.currentFloor) then
        rnd (-(3 / 2)) else 0)
     else 0
  rnd (rnd (distance + queuePenalty) + directionBonus)

/-- `findBestLift` (script.js 52-83) with its score evaluated in binary64:
the bit-accurate model of the dispatcher. -/
def findBestLiftF (call : Call) (lifts : List Lift) : Option Nat :=
  (bestAux (liftScoreF call) lifts 0 none).map Prod.fst

/-- Binary64 evaluation of the `findBestLift` score of
src/lift-simulation/src/script.js 403-425 (K = 0.6, no direction bonus). -/
def liftScoreV2F (targetFloor : Int) (lift : Lift) : ℚ :=
  rnd (rnd |(lastStopOf lift : ℚ) - (targetFloor : ℚ)|
    + rnd ((lift.queue.length : ℚ) * rnd (6 / 10)))

/-- The src/lift-simulation/src/script.js 403-425 dispatcher with its score
evaluated in binary64. -/
def findBestLiftV2F (targetFloor : Int) (lifts : List Lift) : Option Nat :=
  if lifts.length = 0 then none
  else (bestAux (liftScoreV2F targetFloor) lifts 0 none).map Prod.fst

/-! ## General lemmas about the embedded operations -/

theorem sorted_sortAsc (l : List Int) : List.Sorted (· ≤ ·) (sortAsc l) :=
  List.sorted_insertionSort _ l

theorem sorted_sortDesc (l : List Int) : List.Sorted (· ≥ ·) (sortDesc l) :=
  List.sorted_insertionSort _ l

theorem sorted_tail {r : Int → Int → Prop} {l : List Int} (h : List.Sorted r l) :
    List.Sorted r l.tail := by
  cases l with
  | nil => exact h
  | cons a l => exact h.of_cons

/-- `startIteration` either leaves the queue alone (empty case) or pops its
head. -/
theorem startIteration_queue (c : Lift) : (startIteration c).queue = c.queue.tail := by
  obtain ⟨i, cf, q, dir, pr, ph⟩ := c
  cases q with
  | nil => rfl
  | cons t rest =>
    by_cases hd : (t - cf).natAbs = 0 <;> simp [startIteration, hd]

theorem advanceTime_currentFloor (d : Nat) (c : Lift) :
    (advanceTime d c).currentFloor = c.currentFloor := by
  obtain ⟨i, cf, q, dir, pr, ph⟩ := c
  cases ph <;> rfl

/-- The trailing `if (!lift.processing) this.process(lift)` step can only pop
the head of the (already sorted) queue, so sortedness survives it. -/
theorem sorted_trigger {r : Int → Int → Prop} (i : Nat) (cf : Int) (q : List Int)
    (dir : Dir) (pr : Bool) (ph : Phase) (h : List.Sorted r q) :
    List.Sorted r
      (if pr = true then Lift.mk i cf q dir pr ph
       else startIteration (Lift.mk i cf q dir true ph)).queue := by
  by_cases hp : pr = true
  · simpa [hp] using h
  · rw [if_neg hp, startIteration_queue]
    exact sorted_tail h

/-! ## C2 -/

/-- C2 counterexample: the claim says `assignLift` leaves a Down-direction
car's queue sorted descending, but `assignLift`
(src/lift-simulation/src/script.js 427-438) always sorts ascending: a busy
down-moving car at queue `[3]` assigned floor 1 ends with queue `[1, 3]`,
which is not descending. -/
theorem assignLift_down_cex :
    (Lift.mk 0 0 [3] Dir.down true (Phase.doorOpen 3 100)).direction = Dir.down ∧
    ¬ List.Sorted (· ≥ ·)
        (assignLift (Lift.mk 0 0 [3] Dir.down true (Phase.doorOpen 3 100)) 1).queue := by
  refine ⟨rfl, ?_⟩
  decide

/-- C2 (amended): `assignCall` (script.js 85-96) leaves the queue sorted
ascending when the car's committed direction is Up or Idle and descending
when it is Down; the `assignLift` variant
(src/lift-simulation/src/script.js 427-438) always leaves the queue sorted
ascending, regardless of the car's direction. -/
theorem assign_sort_amended (lift : Lift) (floor : Int) :
    (if lift.direction = Dir.down
      then List.Sorted (· ≥ ·) (assignCall lift floor).queue
      else List.Sorted (· ≤ ·) (assignCall lift floor).queue) ∧
    List.Sorted (· ≤ ·) (assignLift lift floor).queue := by
  constructor
  · by_cases hdir : lift.direction = Dir.down
    · rw [if_pos hdir]
      unfold assignCall
      dsimp only
      rw [if_pos hdir]
      apply sorted_trigger
      exact sorted_sortDesc _
    · rw [if_neg hdir]
      unfold assignCall
      dsimp only
      rw [if_neg hdir]
      apply sorted_trigger
      exact sorted_sortAsc _
  · unfold assignLift
    dsimp only
    apply sorted_trigger
    exact sorted_sortAsc _

/-! ## C8 -/

/-- C8: starting a queue entry with `target ≠ currentFloor` enters a travel
phase whose wait is exactly `|target - currentFloor| * FLOOR_TRAVEL_TIME`;
`currentFloor` keeps its pre-travel value while time passes inside the
phase and becomes `target` exactly at travel completion; when the target
equals the current floor the travel phase is skipped and the door cycle
starts at once (script.js 98-138). -/
theorem travel_phase_exact (c : Lift) (t : Int) (rest : List Int)
    (h : c.queue = t :: rest) :
    (t ≠ c.currentFloor →
      (startIteration c).phase
          = Phase.travel t ((t - c.currentFloor).natAbs * FLOOR_TRAVEL_TIME) ∧
      (startIteration c).currentFloor = c.currentFloor ∧
      (∀ d : Nat, (advanceTime d (startIteration c)).currentFloor = c.currentFloor) ∧
      (completePhase (startIteration c)).currentFloor = t) ∧
    (t = c.currentFloor →
      (startIteration c).phase = Phase.doorOpen t DOOR_TIME ∧
      (startIteration c).currentFloor = c.currentFloor) := by
  obtain ⟨i, cf, q, dir, pr, ph⟩ := c
  simp only at h
  subst h
  constructor
  · intro hne
    have hd : (t - cf).natAbs ≠ 0 := by
      simpa [Int.natAbs_eq_zero, sub_eq_zero] using hne
    refine ⟨?_, ?_, ?_, ?_⟩ <;>
      simp [startIteration, hd, advanceTime, completePhase]
  · intro heq
    have hd : (t - cf).natAbs = 0 := by
      simp [Int.natAbs_eq_zero, sub_eq_zero, heq]
    constructor <;> simp [startIteration, hd]

/-- C8 witness: a car at floor 0 whose queue head is 3 schedules a travel of
exactly `3 * FLOOR_TRAVEL_TIME` and arrives at floor 3 on completion. -/
theorem travel_phase_exact_witness :
    (startIteration (Lift.mk 0 0 [3] Dir.idle true Phase.off)).phase
        = Phase.travel 3 (3 * FLOOR_TRAVEL_TIME) ∧
    (completePhase (startIteration (Lift.mk 0 0 [3] Dir.idle true Phase.off))).currentFloor
        = 3 := by
  have h := travel_phase_exact (Lift.mk 0 0 [3] Dir.idle true Phase.off) 3 [] rfl
  have h1 := h.1 (by decide)
  exact ⟨by simpa using h1.1, h1.2.2.2⟩

/-! ## Registry lemmas -/

/-- When the key is fresh, `requestPickup` appends exactly one entry to the
registry — dispatching (the `findBestLift` / `assignCall` tail of the
function) only ever touches `lifts`. -/
theorem requestPickup_activeCalls (s : AppState) (f : Int) (d : Dir) (n : Nat)
    (h : hasKey s.activeCalls (f, d) = false) :
    (requestPickup f d n s).activeCalls
      = s.activeCalls ++ [((f, d), Call.mk f d n)] := by
  unfold requestPickup
  rw [if_neg (by simp [h])]
  dsimp only
  split <;> rfl

theorem hasKey_append (reg : Registry) (e : CallKey × Call) (k : CallKey) :
    hasKey (reg ++ [e]) k = (hasKey reg k || decide (e.1 = k)) := by
  simp [hasKey]

/-- Folding `deleteKey` over a key list filters out every entry whose key is
in the list. -/
theorem foldl_deleteKey (ks : List CallKey) :
    ∀ reg : Registry,
      ks.foldl deleteKey reg = reg.filter fun e => decide (e.1 ∉ ks) := by
  induction ks with
  | nil =>
    intro reg
    simp [List.filter_eq_self]
  | cons k ks ih =>
    intro reg
    rw [List.foldl_cons, ih]
    show (reg.filter fun e => decide (e.1 ≠ k)).filter (fun e => decide (e.1 ∉ ks))
        = reg.filter fun e => decide (e.1 ∉ k :: ks)
    rw [List.filter_filter]
    apply List.filter_congr
    intro e _
    by_cases h1 : e.1 = k <;> by_cases h2 : e.1 ∈ ks <;>
      simp [h1, h2, List.mem_cons]

/-- On a registry with pairwise distinct keys (the `Map` invariant),
`clearCalls` keeps exactly the entries whose call is at another floor. -/
theorem clearCalls_eq_filter (f : Int) (reg : Registry)
    (h : (reg.map Prod.fst).Nodup) :
    clearCalls f reg = reg.filter fun e => decide (e.2.floor ≠ f) := by
  unfold clearCalls
  dsimp only
  rw [foldl_deleteKey]
  apply List.filter_congr
  intro e he
  rw [decide_eq_decide]
  constructor
  · intro hnot hfl
    exact hnot (List.mem_map.mpr ⟨e, List.mem_filter.mpr ⟨he, by simp [hfl]⟩, rfl⟩)
  · intro hne hmem
    obtain ⟨e2, he2, hkey⟩ := List.mem_map.mp hmem
    obtain ⟨he2r, hfl2⟩ := List.mem_filter.mp he2
    have hee : e2 = e := List.inj_on_of_nodup_map h he2r he hkey
    apply hne
    rw [← hee]
    exact of_decide_eq_true hfl2

/-! ## C4 -/

/-- C4: `clearCalls(floor)` (script.js 154-164) removes from the registry
every active call whose floor equals the served floor — both directions —
and leaves every call at a different floor unchanged; it is a total
function, so it never fails.  The hypothesis is the `Map` invariant that
registry keys are pairwise distinct. -/
theorem clearCalls_removes_floor (f : Int) (reg : Registry)
    (h : (reg.map Prod.fst).Nodup) :
    clearCalls f reg = reg.filter fun e => decide (e.2.floor ≠ f) :=
  clearCalls_eq_filter f reg h

/-- C4 witness: clearing floor 2 on a registry holding calls (2, up),
(2, down) and (3, down) removes both direction-2 entries and keeps the
floor-3 entry. -/
theorem clearCalls_removes_floor_witness :
    (([((2, Dir.up), Call.mk 2 Dir.up 0), ((2, Dir.down), Call.mk 2 Dir.down 1),
        ((3, Dir.down), Call.mk 3 Dir.down 2)] : Registry).map Prod.fst).Nodup ∧
    clearCalls 2
        [((2, Dir.up), Call.mk 2 Dir.up 0), ((2, Dir.down), Call.mk 2 Dir.down 1),
          ((3, Dir.down), Call.mk 3 Dir.down 2)]
      = [((2, Dir.up), Call.mk 2 Dir.up 0), ((2, Dir.down), Call.mk 2 Dir.down 1),
          ((3, Dir.down), Call.mk 3 Dir.down 2)].filter
          fun e => decide (e.2.floor ≠ 2) :=
  ⟨by decide, clearCalls_removes_floor 2 _ (by decide)⟩

/-! ## C3 -/

/-- C3: `requestPickup(floor, direction)` (script.js 36-50) with an already
active (floor, direction) key is a complete no-op — the registry, every
car's queue and every car's state are untouched — and two consecutive
requests for a fresh key leave exactly one call with that key in the
registry. -/
theorem requestPickup_of_hasKey (s : AppState) (f : Int) (d : Dir) (n : Nat)
    (h : hasKey s.activeCalls (f, d) = true) : requestPickup f d n s = s := by
  unfold requestPickup
  rw [if_pos (by simp [h])]

theorem requestPickup_duplicate_noop (s : AppState) (f : Int) (d : Dir) (n1 n2 : Nat) :
    (hasKey s.activeCalls (f, d) = true → requestPickup f d n1 s = s) ∧
    (hasKey s.activeCalls (f, d) = false →
      countKey (requestPickup f d n2 (requestPickup f d n1 s)).activeCalls (f, d) = 1) := by
  constructor
  · intro h
    exact requestPickup_of_hasKey s f d n1 h
  · intro h
    have h1 := requestPickup_activeCalls s f d n1 h
    have h2 : hasKey (requestPickup f d n1 s).activeCalls (f, d) = true := by
      rw [h1, hasKey_append]
      simp
    rw [requestPickup_of_hasKey _ f d n2 h2]
    unfold countKey
    rw [h1, List.filter_append]
    have hz : s.activeCalls.filter (fun e => decide (e.1 = (f, d))) = [] := by
      rw [List.filter_eq_nil_iff]
      intro e he
      simp only [hasKey, List.any_eq_false] at h
      simpa using h e he
    simp [hz]

/-- C3 witness: a duplicate request on a one-entry registry is the identity,
and two requests from a fresh state leave a single (2, up) call. -/
theorem requestPickup_duplicate_noop_witness :
    requestPickup 2 Dir.up 3
        (AppState.mk [] [((2, Dir.up), Call.mk 2 Dir.up 0)])
      = AppState.mk [] [((2, Dir.up), Call.mk 2 Dir.up 0)] ∧
    countKey
        (requestPickup 2 Dir.up 9
          (requestPickup 2 Dir.up 3 (AppState.mk [createLift 0] []))).activeCalls
        (2, Dir.up) = 1 :=
  ⟨(requestPickup_duplicate_noop
      (AppState.mk [] [((2, Dir.up), Call.mk 2 Dir.up 0)]) 2 Dir.up 3 9).1 (by decide),
   (requestPickup_duplicate_noop
      (AppState.mk [createLift 0] []) 2 Dir.up 3 9).2 (by decide)⟩

/-! ## C10 -/

/-- C10: `requestPickup` registers the call before dispatching: for a fresh
key the registry always gains exactly the new entry (even when the
selected car already queues that floor — dispatch never touches the
registry); with zero cars the whole effect is that registration; and the
entry survives every `clearCalls` at any other floor, i.e. it stays active
until some car stops at its floor.  The second hypothesis is the source
invariant that each entry's key is built from its call's own floor and
direction. -/
theorem requestPickup_registers_first (s : AppState) (f : Int) (d : Dir) (n : Nat)
    (h : hasKey s.activeCalls (f, d) = false)
    (hc : ∀ e ∈ s.activeCalls, e.1 = (e.2.floor, e.2.direction)) :
    (requestPickup f d n s).activeCalls = s.activeCalls ++ [((f, d), Call.mk f d n)] ∧
    (s.lifts = [] →
      requestPickup f d n s
        = AppState.mk [] (s.activeCalls ++ [((f, d), Call.mk f d n)])) ∧
    (∀ g, g ≠ f →
      ((f, d), Call.mk f d n) ∈ clearCalls g (requestPickup f d n s).activeCalls) := by
  refine ⟨requestPickup_activeCalls s f d n h, ?_, ?_⟩
  · intro hl
    unfold requestPickup
    rw [if_neg (by simp [h])]
    dsimp only
    rw [hl]
    obtain ⟨lifts, reg⟩ := s
    simp only at hl
    subst hl
    rfl
  · intro g hg
    rw [requestPickup_activeCalls s f d n h]
    unfold clearCalls
    dsimp only
    rw [foldl_deleteKey, List.mem_filter]
    refine ⟨List.mem_append_right _ (List.mem_singleton.mpr rfl), ?_⟩
    rw [decide_eq_true_eq]
    intro hmem
    obtain ⟨e2, he2, hkey⟩ := List.mem_map.mp hmem
    obtain ⟨he2r, hfl2⟩ := List.mem_filter.mp he2
    have hfl2' : e2.2.floor = g := of_decide_eq_true hfl2
    rcases List.mem_append.mp he2r with hin | hin
    · have hck := hc e2 hin
      apply hg
      rw [hkey] at hck
      have : e2.2.floor = f := (Prod.mk.injEq _ _ _ _).mp hck.symm |>.1
      rw [← this, hfl2']
    · have he0 : e2 = ((f, d), Call.mk f d n) := by simpa using hin
      apply hg
      rw [he0] at hfl2'
      simpa using hfl2'.symm

/-- C10 witness: from a one-car state with an empty registry, requesting
(2, up) appends the call, and the call survives clearing floor 3. -/
theorem requestPickup_registers_first_witness :
    (requestPickup 2 Dir.up 4 (AppState.mk [createLift 0] [])).activeCalls
      = [((2, Dir.up), Call.mk 2 Dir.up 4)] ∧
    ((2, Dir.up), Call.mk 2 Dir.up 4)
      ∈ clearCalls 3 (requestPickup 2 Dir.up 4 (AppState.mk [createLift 0] [])).activeCalls :=
  ⟨(requestPickup_registers_first (AppState.mk [createLift 0] []) 2 Dir.up 4
      (by decide) (by decide)).1,
   (requestPickup_registers_first (AppState.mk [createLift 0] []) 2 Dir.up 4
      (by decide) (by decide)).2.2 3 (by decide)⟩

/-! ## C5 -/

/-- C5 counterexample: `resetSimulation` (script.js 477-487) cancels no
timers.  A car was mid-door-cycle serving floor 2 when reset hit; after the
reset a fresh (2, up) call is registered; when the zombie process's
door-close wait then expires, its `clearCalls(2)` (script.js 113) deletes
the new call from the post-reset registry — a previously scheduled timer
mutates post-reset state. -/
theorem reset_zombie_cex :
    ((resumeDoorClose (Lift.mk 0 2 [] Dir.up true (Phase.doorClose 2 0))
        (requestPickup 2 Dir.up 7
          (resetSimulation
            (AppState.mk [Lift.mk 0 2 [] Dir.up true (Phase.doorClose 2 1800)]
              [((2, Dir.up), Call.mk 2 Dir.up 1)])))).2).activeCalls
      ≠ (requestPickup 2 Dir.up 7
          (resetSimulation
            (AppState.mk [Lift.mk 0 2 [] Dir.up true (Phase.doorClose 2 1800)]
              [((2, Dir.up), Call.mk 2 Dir.up 1)]))).activeCalls := by
  decide

/-- C5 (amended): `resetSimulation` clears all calls and empties the car
set (cars are re-created at floor 0 Idle only by the next
`startSimulation`), but in-flight timers are not cancelled: when a
pre-reset door-close wait expires, its continuation still runs
`clearCalls` against the shared registry, so previously scheduled timers
can mutate the post-reset registry. -/
theorem reset_zombie_amended (s s2 : AppState) (z : Lift) (t : Int) (r : Nat)
    (h : z.phase = Phase.doorClose t r) :
    (resetSimulation s).activeCalls = [] ∧ (resetSimulation s).lifts = [] ∧
    (resumeDoorClose z s2).2.activeCalls = clearCalls t s2.activeCalls := by
  refine ⟨rfl, rfl, ?_⟩
  unfold resumeDoorClose
  rw [h]

/-- C5 witness: the amended statement at a concrete mid-door-close car and
concrete pre/post states. -/
theorem reset_zombie_amended_witness :
    (Lift.mk 1 4 [] Dir.down true (Phase.doorClose 4 900)).phase = Phase.doorClose 4 900 ∧
    ((resetSimulation (AppState.mk [createLift 1] [((4, Dir.down), Call.mk 4 Dir.down 2)])).activeCalls = [] ∧
     (resetSimulation (AppState.mk [createLift 1] [((4, Dir.down), Call.mk 4 Dir.down 2)])).lifts = [] ∧
     (resumeDoorClose (Lift.mk 1 4 [] Dir.down true (Phase.doorClose 4 900))
        (AppState.mk [] [((4, Dir.down), Call.mk 4 Dir.down 2)])).2.activeCalls
       = clearCalls 4 (AppState.mk [] [((4, Dir.down), Call.mk 4 Dir.down 2)]).activeCalls) :=
  ⟨rfl,
   reset_zombie_amended
     (AppState.mk [createLift 1] [((4, Dir.down), Call.mk 4 Dir.down 2)])
     (AppState.mk [] [((4, Dir.down), Call.mk 4 Dir.down 2)])
     (Lift.mk 1 4 [] Dir.down true (Phase.doorClose 4 900)) 4 900 rfl⟩

/-! ## Reachability invariants (C6, C7) -/

theorem nodup_sortAsc {l : List Int} (h : l.Nodup) : (sortAsc l).Nodup :=
  (List.perm_insertionSort _ l).symm.nodup h

theorem nodup_sortDesc {l : List Int} (h : l.Nodup) : (sortDesc l).Nodup :=
  (List.perm_insertionSort _ l).symm.nodup h

/-- The `if (!queue.includes(floor)) queue.push(floor)` step keeps the queue
duplicate-free. -/
theorem nodup_push (f : Int) {l : List Int} (h : l.Nodup) :
    (if l.contains f then l else l ++ [f]).Nodup := by
  by_cases hc : f ∈ l
  · simpa [hc] using h
  · have hcc : l.contains f = false := by simpa using hc
    rw [if_neg (by simpa using hc)]
    refine List.Nodup.append h (List.nodup_singleton f) ?_
    simpa [List.disjoint_singleton] using hc

/-- Machine invariant tying the `processing` flag, the suspension point, the
direction and the queue of a reachable lift: the flag is set exactly while
the loop is suspended somewhere; a lift whose loop is off is idle with an
empty queue; a lift in transit is never direction-idle; and the queue never
holds duplicates. -/
def CarInv (c : Lift) : Prop :=
  (c.processing = true ↔ c.phase ≠ Phase.off) ∧
  (c.phase = Phase.off → c.direction = Dir.idle ∧ c.queue = []) ∧
  (∀ t r, c.phase = Phase.travel t r → c.direction ≠ Dir.idle) ∧
  c.queue.Nodup

theorem carInv_createLift (i : Nat) : CarInv (createLift i) := by
  refine ⟨?_, ?_, ?_, ?_⟩ <;> simp [createLift]

theorem carInv_startIteration {c : Lift} (hp : c.processing = true)
    (hn : c.queue.Nodup) : CarInv (startIteration c) := by
  obtain ⟨i, cf, q, dir, pr, ph⟩ := c
  simp only at hp hn
  subst hp
  cases q with
  | nil =>
    refine ⟨?_, ?_, ?_, ?_⟩ <;> simp [startIteration]
  | cons t rest =>
    have hrest : rest.Nodup := hn.of_cons
    by_cases hd : (t - cf).natAbs = 0
    · have heq : startIteration (Lift.mk i cf (t :: rest) dir true ph)
          = Lift.mk i cf rest
              (if t > cf then Dir.up else if t < cf then Dir.down else Dir.idle) true
              (Phase.doorOpen t DOOR_TIME) := by
        simp [startIteration, hd]
      rw [heq]
      refine ⟨?_, ?_, ?_, ?_⟩ <;> simp [hrest]
    · have hne : t ≠ cf := fun he => hd (by simp [he, sub_eq_zero])
      have heq : startIteration (Lift.mk i cf (t :: rest) dir true ph)
          = Lift.mk i cf rest
              (if t > cf then Dir.up else if t < cf then Dir.down else Dir.idle) true
              (Phase.travel t ((t - cf).natAbs * FLOOR_TRAVEL_TIME)) := by
        simp [startIteration, hd]
      rw [heq]
      have hdir : (if t > cf then Dir.up else if t < cf then Dir.down else Dir.idle)
          ≠ Dir.idle := by
        rcases lt_or_gt_of_ne hne with hlt | hgt
        · simp [hlt, not_lt.mpr (le_of_lt hlt)]
        · simp [hgt]
      refine ⟨?_, ?_, ?_, ?_⟩
      · simp
      · simp
      · intro t2 r2 _
        simpa using hdir
      · simpa using hrest

/-- With the loop already running, `assignCall` only rewrites the queue. -/
theorem assignCall_processing_true {c : Lift} (hp : c.processing = true) (f : Int) :
    assignCall c f = { c with queue :=
      (if c.direction = Dir.down
        then sortDesc (sortAsc (if c.queue.contains f then c.queue else c.queue ++ [f]))
        else sortAsc (if c.queue.contains f then c.queue else c.queue ++ [f])) } := by
  unfold assignCall
  dsimp only
  rw [if_pos hp]

theorem carInv_assignCall {c : Lift} (h : CarInv c) (f : Int) :
    CarInv (assignCall c f) := by
  obtain ⟨hlink, hoff, htr, hnd⟩ := h
  by_cases hp : c.processing = true
  · rw [assignCall_processing_true hp f]
    have hph : c.phase ≠ Phase.off := hlink.mp hp
    have hq3 : (if c.direction = Dir.down
        then sortDesc (sortAsc (if c.queue.contains f then c.queue else c.queue ++ [f]))
        else sortAsc (if c.queue.contains f then c.queue else c.queue ++ [f])).Nodup := by
      by_cases hdir : c.direction = Dir.down
      · rw [if_pos hdir]
        exact nodup_sortDesc (nodup_sortAsc (nodup_push f hnd))
      · rw [if_neg hdir]
        exact nodup_sortAsc (nodup_push f hnd)
    refine ⟨?_, ?_, ?_, ?_⟩
    · simpa using hlink
    · intro hcc
      exact absurd (by simpa using hcc) hph
    · intro t r hcc
      simpa using htr t r (by simpa using hcc)
    · simpa using hq3
  · have hpf : c.processing = false := by simpa using hp
    have hphoff : c.phase = Phase.off := by
      by_contra hno
      rw [hlink.mpr hno] at hpf
      exact absurd hpf (by simp)
    obtain ⟨hdir, hq⟩ := hoff hphoff
    obtain ⟨i, cf, q, dir, pr, ph⟩ := c
    simp only at hdir hq hpf hphoff
    subst hdir hq hpf hphoff
    have heq : assignCall (Lift.mk i cf [] Dir.idle false Phase.off) f
        = startIteration (Lift.mk i cf [f] Dir.idle true Phase.off) := rfl
    rw [heq]
    exact carInv_startIteration rfl (by simp)

theorem carInv_completePhase {c : Lift} (h : CarInv c) : CarInv (completePhase c) := by
  obtain ⟨hlink, hoff, htr, hnd⟩ := h
  cases hph : c.phase with
  | off =>
    have heq : completePhase c = c := by
      unfold completePhase
      rw [hph]
    rw [heq]
    exact ⟨hlink, hoff, htr, hnd⟩
  | travel t r =>
    have hpr : c.processing = true := hlink.mpr (by rw [hph]; simp)
    have heq : completePhase c
        = { c with currentFloor := t, phase := Phase.doorOpen t DOOR_TIME } := by
      unfold completePhase
      rw [hph]
    rw [heq]
    refine ⟨?_, ?_, ?_, ?_⟩ <;> simp [hpr, hnd]
  | doorOpen t r =>
    have hpr : c.processing = true := hlink.mpr (by rw [hph]; simp)
    have heq : completePhase c = { c with phase := Phase.doorClose t DOOR_TIME } := by
      unfold completePhase
      rw [hph]
    rw [heq]
    refine ⟨?_, ?_, ?_, ?_⟩ <;> simp [hpr, hnd]
  | doorClose t r =>
    have hpr : c.processing = true := hlink.mpr (by rw [hph]; simp)
    have heq : completePhase c = startIteration c := by
      unfold completePhase
      rw [hph]
    rw [heq]
    exact carInv_startIteration hpr hnd

theorem carInv_advanceTime {c : Lift} (h : CarInv c) (d : Nat) :
    CarInv (advanceTime d c) := by
  obtain ⟨hlink, hoff, htr, hnd⟩ := h
  cases hph : c.phase with
  | off =>
    have heq : advanceTime d c = c := by
      unfold advanceTime
      rw [hph]
    rw [heq]
    exact ⟨hlink, hoff, htr, hnd⟩
  | travel t r =>
    have hpr : c.processing = true := hlink.mpr (by rw [hph]; simp)
    have heq : advanceTime d c = { c with phase := Phase.travel t (r - d) } := by
      unfold advanceTime
      rw [hph]
    rw [heq]
    refine ⟨?_, ?_, ?_, ?_⟩
    · simp [hpr]
    · simp
    · intro t2 r2 _
      simpa using htr t r hph
    · simpa using hnd
  | doorOpen t r =>
    have hpr : c.processing = true := hlink.mpr (by rw [hph]; simp)
    have heq : advanceTime d c = { c with phase := Phase.doorOpen t (r - d) } := by
      unfold advanceTime
      rw [hph]
    rw [heq]
    refine ⟨?_, ?_, ?_, ?_⟩ <;> simp [hpr, hnd]
  | doorClose t r =>
    have hpr : c.processing = true := hlink.mpr (by rw [hph]; simp)
    have heq : advanceTime d c = { c with phase := Phase.doorClose t (r - d) } := by
      unfold advanceTime
      rw [hph]
    rw [heq]
    refine ⟨?_, ?_, ?_, ?_⟩ <;> simp [hpr, hnd]

theorem reach_inv {c : Lift} (h : Reach c) : CarInv c := by
  induction h with
  | init i => exact carInv_createLift i
  | assign f _ ih => exact carInv_assignCall ih f
  | complete _ ih => exact carInv_completePhase ih
  | advance d _ ih => exact carInv_advanceTime ih d

/-! ## C6 -/

/-- C6 counterexample: assigning floor 0 to a fresh car at floor 0 is a
reachable step (`requestPickup(0, up)` with one idle car does exactly
this); the car then holds `direction = "idle"` while it is mid-door-cycle,
so "direction is Idle iff queue empty and not mid-travel and not
mid-door-cycle" fails: the left side is true and the right side is false. -/
theorem idle_iff_cex :
    Reach (assignCall (createLift 0) 0) ∧
    ¬ ((assignCall (createLift 0) 0).direction = Dir.idle ↔
        ((assignCall (createLift 0) 0).queue = [] ∧
          isMidTravel (assignCall (createLift 0) 0) = false ∧
          isMidDoor (assignCall (createLift 0) 0) = false)) :=
  ⟨Reach.assign 0 (Reach.init 0), by decide⟩

/-- C6 (amended): in every reachable car state, a car whose queue is empty
and whose loop is not suspended anywhere (not mid-phase) has direction
Idle, and a mid-travel car is never direction-Idle; but the claimed "iff"
fails in the other direction, because a car serving a target equal to its
own floor keeps `direction = "idle"` through its door cycle
(script.js 104-106). -/
theorem idle_direction_amended (c : Lift) (h : Reach c) :
    ((c.queue = [] ∧ c.phase = Phase.off) → c.direction = Dir.idle) ∧
    (∀ t r, c.phase = Phase.travel t r → c.direction ≠ Dir.idle) :=
  ⟨fun hq => ((reach_inv h).2.1 hq.2).1, (reach_inv h).2.2.1⟩

/-- C6 witness: a fresh car (reachable, empty queue, loop off) is Idle. -/
theorem idle_direction_amended_witness :
    (createLift 1).direction = Dir.idle :=
  (idle_direction_amended (createLift 1) (Reach.init 1)).1 ⟨rfl, rfl⟩

/-! ## C7 -/

/-- C7: in every state reachable through assignments and queue processing,
a car's queue holds no duplicate floors (`assignCall` pushes only absent
floors, sorting permutes, and processing only pops). -/
theorem queue_nodup_invariant (c : Lift) (h : Reach c) : c.queue.Nodup :=
  (reach_inv h).2.2.2

/-- C7 witness: assigning floor 5 twice to a fresh car leaves a
duplicate-free queue. -/
theorem queue_nodup_invariant_witness :
    (assignCall (assignCall (createLift 2) 5) 5).queue.Nodup :=
  queue_nodup_invariant _ (Reach.assign 5 (Reach.assign 5 (Reach.init 2)))

/-! ## Dispatcher characterization (C1, C9) -/

/-- Running the `forEach` accumulator over the remaining lifts, starting
from committed best `(bi, bs)` at absolute position `n`: the final score is
the minimum of `bs` and all remaining scores, and the committed entry only
changes for a strictly better score, the earliest such one. -/
theorem bestAux_acc (f : Lift → ℚ) :
    ∀ (ls : List Lift) (n bi : Nat) (bs : ℚ),
      ∃ ri rs, bestAux f ls n (some (bi, bs)) = some (ri, rs) ∧ rs ≤ bs ∧
        (∀ j (hj : j < ls.length), rs ≤ f (ls.get ⟨j, hj⟩)) ∧
        ((ri = bi ∧ rs = bs) ∨
          ∃ j, ∃ hj : j < ls.length, ri = n + j ∧ rs = f (ls.get ⟨j, hj⟩) ∧ rs < bs ∧
            ∀ k (hk : k < j), rs < f (ls.get ⟨k, Nat.lt_trans hk hj⟩)) := by
  intro ls
  induction ls with
  | nil =>
    intro n bi bs
    exact ⟨bi, bs, rfl, le_refl _, fun j hj => absurd hj (Nat.not_lt_zero j),
      Or.inl ⟨rfl, rfl⟩⟩
  | cons l ls ih =>
    intro n bi bs
    by_cases hlt : f l < bs
    · obtain ⟨ri, rs, heq, hle, hmin, hca⟩ := ih (n + 1) n (f l)
      refine ⟨ri, rs, ?_, ?_, ?_, ?_⟩
      · rw [show bestAux f (l :: ls) n (some (bi, bs))
            = bestAux f ls (n + 1) (some (n, f l)) by simp [bestAux, hlt]]
        exact heq
      · exact le_of_lt (lt_of_le_of_lt hle hlt)
      · intro j hj
        cases j with
        | zero => exact hle
        | succ j2 => exact hmin j2 (Nat.lt_of_succ_lt_succ hj)
      · right
        rcases hca with ⟨hri, hrs⟩ | ⟨j, hj, hri, hrs, hlt2, hks⟩
        · refine ⟨0, Nat.succ_pos _, by omega, hrs, ?_, ?_⟩
          · rw [hrs]
            exact hlt
          · intro k hk
            exact absurd hk (Nat.not_lt_zero k)
        · refine ⟨j + 1, Nat.succ_lt_succ hj, by omega, hrs,
            lt_trans hlt2 hlt, ?_⟩
          intro k hk
          cases k with
          | zero => exact hlt2
          | succ k2 => exact hks k2 (Nat.lt_of_succ_lt_succ hk)
    · obtain ⟨ri, rs, heq, hle, hmin, hca⟩ := ih (n + 1) bi bs
      have hbs : bs ≤ f l := not_lt.mp hlt
      refine ⟨ri, rs, ?_, hle, ?_, ?_⟩
      · rw [show bestAux f (l :: ls) n (some (bi, bs))
            = bestAux f ls (n + 1) (some (bi, bs)) by simp [bestAux, hlt]]
        exact heq
      · intro j hj
        cases j with
        | zero => exact le_trans hle hbs
        | succ j2 => exact hmin j2 (Nat.lt_of_succ_lt_succ hj)
      · rcases hca with ⟨hri, hrs⟩ | ⟨j, hj, hri, hrs, hlt2, hks⟩
        · exact Or.inl ⟨hri, hrs⟩
        · right
          refine ⟨j + 1, Nat.succ_lt_succ hj, by omega, hrs, hlt2, ?_⟩
          intro k hk
          cases k with
          | zero => exact lt_of_lt_of_le hlt2 hbs
          | succ k2 => exact hks k2 (Nat.lt_of_succ_lt_succ hk)

/-- On a nonempty lift list the `forEach` of `findBestLift` commits to the
first index of strictly minimal score. -/
theorem bestAux_start (f : Lift → ℚ) (l : Lift) (ls : List Lift) :
    ∃ ri, ∃ hri : ri < (l :: ls).length,
      bestAux f (l :: ls) 0 none = some (ri, f ((l :: ls).get ⟨ri, hri⟩)) ∧
      (∀ j (hj : j < (l :: ls).length),
        f ((l :: ls).get ⟨ri, hri⟩) ≤ f ((l :: ls).get ⟨j, hj⟩)) ∧
      (∀ k (hk : k < ri),
        f ((l :: ls).get ⟨ri, hri⟩) < f ((l :: ls).get ⟨k, Nat.lt_trans hk hri⟩)) := by
  have h0 : bestAux f (l :: ls) 0 none = bestAux f ls 1 (some (0, f l)) := rfl
  obtain ⟨ri, rs, heq, hle, hmin, hca⟩ := bestAux_acc f ls 1 0 (f l)
  rcases hca with ⟨hri, hrs⟩ | ⟨j, hj, hri, hrs, hlt2, hks⟩
  · subst hri
    refine ⟨0, Nat.succ_pos _, ?_, ?_, ?_⟩
    · rw [h0, heq, hrs]
      rfl
    · intro j hj
      cases j with
      | zero => exact le_refl _
      | succ j2 => exact hrs ▸ hmin j2 (Nat.lt_of_succ_lt_succ hj)
    · intro k hk
      exact absurd hk (Nat.not_lt_zero k)
  · have hri2 : ri = j + 1 := by omega
    subst hri2
    refine ⟨j + 1, Nat.succ_lt_succ hj, ?_, ?_, ?_⟩
    · rw [h0, heq, hrs]
      rfl
    · intro j2 hj2
      cases j2 with
      | zero => exact le_of_lt (hrs ▸ hlt2)
      | succ k2 => exact hrs ▸ hmin k2 (Nat.lt_of_succ_lt_succ hj2)
    · intro k hk
      cases k with
      | zero => exact hrs ▸ hlt2
      | succ k2 => exact hrs ▸ hks k2 (Nat.lt_of_succ_lt_succ hk)

/-- The specification's wording of the score formula coincides with the
source's: "lies ahead in the call's direction" already forces the matched
direction to be `up` or `down`, which subsumes the code's `!== "idle"`
guard. -/
theorem specScore_eq_liftScore (call : Call) (lift : Lift) :
    specScore call lift = liftScore call lift := by
  unfold specScore liftScore
  congr 1
  by_cases hA : lift.direction = call.direction
  · by_cases hB : (call.direction = Dir.up ∧ lift.currentFloor ≤ call.floor) ∨
        (call.direction = Dir.down ∧ call.floor ≤ lift.currentFloor)
    · have hni : lift.direction ≠ Dir.idle := by
        rcases hB with ⟨h1, _⟩ | ⟨h1, _⟩ <;> rw [hA, h1] <;> simp
      rw [if_pos ⟨hA, hB⟩, if_pos ⟨hA, hni⟩, if_pos hB]
    · by_cases hni : lift.direction ≠ Dir.idle
      · rw [if_neg (fun hc => hB hc.2), if_pos ⟨hA, hni⟩, if_neg hB]
      · rw [if_neg (fun hc => hB hc.2), if_neg (fun hc => hni hc.2)]
  · rw [if_neg (fun hc => hA hc.1), if_neg (fun hc => hA hc.1)]

/-! ## C1 -/

set_option maxHeartbeats 4000000 in
unseal Rat.mul Rat.add Rat.sub Rat.inv in
/-- C1 counterexample: the exact-arithmetic tie-break clause is false of
the program.  Against a call at floor 7, a car with distance 0 and queue
length 7 and a car with distance 4 and queue length 2 both have the
specification score `28/5 = 5.6` exactly, so the claim demands the lower
index 0; but in binary64 `7*0.8` rounds up to `5.6000000000000005` while
`4 + 2*0.8` equals `fl(5.6)`, so `score < bestScore` fires at index 1 and
the program selects the later car. -/
theorem findBestLift_tie_cex :
    specScore (Call.mk 7 Dir.up 0)
        (Lift.mk 0 0 [1, 2, 3, 4, 5, 6, 7] Dir.idle true Phase.off)
      = specScore (Call.mk 7 Dir.up 0)
          (Lift.mk 1 0 [2, 3] Dir.idle true Phase.off) ∧
    findBestLiftF (Call.mk 7 Dir.up 0)
        [Lift.mk 0 0 [1, 2, 3, 4, 5, 6, 7] Dir.idle true Phase.off,
         Lift.mk 1 0 [2, 3] Dir.idle true Phase.off]
      = some 1 := by
  constructor
  · decide
  · decide

/-- C1 (amended): with at least one car, each `findBestLift`
implementation returns the index of the car minimizing its score as the
program actually evaluates it — in binary64 floating point (`liftScoreF`:
K = 0.8 with the -1.5 direction bonus, script.js 52-83; `liftScoreV2F`:
K = 0.6, no bonus, src/lift-simulation/src/script.js 403-425) — and among
cars with equal minimal binary64 score the lowest index wins.  Ties of the
exact formula are not broken by index: equal exact scores can have
different binary64 images, and then the car with the smaller image wins
regardless of position. -/
theorem findBestLift_float_min_score (call : Call) (t : Int)
    (lifts : List Lift) (h : lifts ≠ []) :
    (∃ i, ∃ hi : i < lifts.length, findBestLiftF call lifts = some i ∧
      (∀ j (hj : j < lifts.length),
        liftScoreF call (lifts.get ⟨i, hi⟩) ≤ liftScoreF call (lifts.get ⟨j, hj⟩)) ∧
      (∀ k (hk : k < i),
        liftScoreF call (lifts.get ⟨i, hi⟩)
          < liftScoreF call (lifts.get ⟨k, Nat.lt_trans hk hi⟩))) ∧
    (∃ i, ∃ hi : i < lifts.length, findBestLiftV2F t lifts = some i ∧
      (∀ j (hj : j < lifts.length),
        liftScoreV2F t (lifts.get ⟨i, hi⟩) ≤ liftScoreV2F t (lifts.get ⟨j, hj⟩)) ∧
      (∀ k (hk : k < i),
        liftScoreV2F t (lifts.get ⟨i, hi⟩)
          < liftScoreV2F t (lifts.get ⟨k, Nat.lt_trans hk hi⟩))) := by
  obtain ⟨l, ls, rfl⟩ := List.exists_cons_of_ne_nil h
  constructor
  · obtain ⟨ri, hri, heq, hmin, hstrict⟩ := bestAux_start (liftScoreF call) l ls
    refine ⟨ri, hri, ?_, hmin, hstrict⟩
    unfold findBestLiftF
    rw [heq]
    rfl
  · obtain ⟨ri, hri, heq, hmin, hstrict⟩ := bestAux_start (liftScoreV2F t) l ls
    refine ⟨ri, hri, ?_, hmin, hstrict⟩
    unfold findBestLiftV2F
    rw [if_neg (by simp), heq]
    rfl

/-- C1 witness: with a single fresh car both dispatchers pick index 0. -/
theorem findBestLift_float_min_score_witness :
    findBestLiftF (Call.mk 3 Dir.up 0) [createLift 0] = some 0 ∧
    findBestLiftV2F 3 [createLift 0] = some 0 := by
  obtain ⟨⟨i1, hi1, he1, _, _⟩, ⟨i2, hi2, he2, _, _⟩⟩ :=
    findBestLift_float_min_score (Call.mk 3 Dir.up 0) 3 [createLift 0] (by simp)
  have hb1 : i1 < 1 := by simpa using hi1
  have hb2 : i2 < 1 := by simpa using hi2
  have e1 : i1 = 0 := by omega
  have e2 : i2 = 0 := by omega
  exact ⟨e1 ▸ he1, e2 ▸ he2⟩

/-! ## C9 -/

/-- The part_001 accumulator never drops a committed lift. -/
theorem part1SelectAux_isSome (target : Int) :
    ∀ (ls : List SLift) (b : SLift) (m : Nat),
      ∃ r, part1SelectAux target ls (some (b, m)) = some r := by
  intro ls
  induction ls with
  | nil =>
    intro b m
    exact ⟨(b, m), rfl⟩
  | cons l ls ih =>
    intro b m
    by_cases hb : l.busy = true
    · obtain ⟨r, hr⟩ := ih b m
      refine ⟨r, ?_⟩
      rw [show part1SelectAux target (l :: ls) (some (b, m))
          = part1SelectAux target ls (some (b, m)) by simp [part1SelectAux, hb]]
      exact hr
    · by_cases hd : (l.currentFloor - target).natAbs < m
      · obtain ⟨r, hr⟩ := ih l ((l.currentFloor - target).natAbs)
        refine ⟨r, ?_⟩
        rw [show part1SelectAux target (l :: ls) (some (b, m))
            = part1SelectAux target ls (some (l, (l.currentFloor - target).natAbs)) by
          simp [part1SelectAux, hb, hd]]
        exact hr
      · obtain ⟨r, hr⟩ := ih b m
        refine ⟨r, ?_⟩
        rw [show part1SelectAux target (l :: ls) (some (b, m))
            = part1SelectAux target ls (some (b, m)) by simp [part1SelectAux, hb, hd]]
        exact hr

/-- The part_001 selection fails exactly when every lift is busy. -/
theorem part1SelectLift_none_iff (lifts : List SLift) (target : Int) :
    part1SelectLift lifts target = none ↔ ∀ l ∈ lifts, l.busy = true := by
  unfold part1SelectLift
  induction lifts with
  | nil => simp [part1SelectAux]
  | cons l ls ih =>
    by_cases hb : l.busy = true
    · rw [show part1SelectAux target (l :: ls) none
          = part1SelectAux target ls none by simp [part1SelectAux, hb]]
      constructor
      · intro hnone x hx
        rcases List.mem_cons.mp hx with rfl | hx2
        · exact hb
        · exact (ih.mp hnone) x hx2
      · intro hall
        exact ih.mpr fun x hx => hall x (List.mem_cons_of_mem l hx)
    · obtain ⟨r, hr⟩ :=
        part1SelectAux_isSome target ls l ((l.currentFloor - target).natAbs)
      rw [show part1SelectAux target (l :: ls) none
          = part1SelectAux target ls (some (l, (l.currentFloor - target).natAbs)) by
        simp [part1SelectAux, hb]]
      rw [hr]
      refine iff_of_false (by simp) ?_
      intro hall
      exact hb (hall l (List.mem_cons_self l ls))

/-- C9 counterexample: the claim says selection returns a car whenever at
least one car exists, regardless of busy status; but the part_001
`assignLift` selection skips busy lifts, so with one busy car it returns no
car even though a car exists (part_001 then re-queues the call). -/
theorem selectCar_none_cex :
    part1SelectLift [SLift.mk 0 true] 2 = none ∧
    ([SLift.mk 0 true] : List SLift) ≠ [] := by
  constructor
  · rfl
  · simp

/-- C9 (amended): both `findBestLift` implementations (script.js 52-83 and
src/lift-simulation/src/script.js 403-425) return `none` exactly when there
are zero cars and otherwise return a valid index regardless of busy/moving
status or queue contents; the part_001 `assignLift` selection instead
returns no car exactly when every car is busy. -/
theorem selectCar_total_amended (call : Call) (t : Int) (lifts : List Lift)
    (slifts : List SLift) :
    (findBestLift call lifts = none ↔ lifts = []) ∧
    (findBestLiftV2 t lifts = none ↔ lifts = []) ∧
    (∀ i, findBestLift call lifts = some i → i < lifts.length) ∧
    (∀ i, findBestLiftV2 t lifts = some i → i < lifts.length) ∧
    (part1SelectLift slifts t = none ↔ ∀ l ∈ slifts, l.busy = true) := by
  refine ⟨?_, ?_, ?_, ?_, part1SelectLift_none_iff slifts t⟩
  · cases lifts with
    | nil => simp [findBestLift, bestAux]
    | cons l ls =>
      obtain ⟨ri, hri, heq, _, _⟩ := bestAux_start (liftScore call) l ls
      have h2 : findBestLift call (l :: ls) = some ri := by
        unfold findBestLift
        rw [heq]
        rfl
      rw [h2]
      exact iff_of_false (by simp) (by simp)
  · cases lifts with
    | nil => simp [findBestLiftV2]
    | cons l ls =>
      obtain ⟨ri, hri, heq, _, _⟩ := bestAux_start (liftScoreV2 t) l ls
      have h2 : findBestLiftV2 t (l :: ls) = some ri := by
        unfold findBestLiftV2
        rw [if_neg (by simp), heq]
        rfl
      rw [h2]
      exact iff_of_false (by simp) (by simp)
  · intro i hi
    cases lifts with
    | nil => simp [findBestLift, bestAux] at hi
    | cons l ls =>
      obtain ⟨ri, hri, heq, _, _⟩ := bestAux_start (liftScore call) l ls
      have h2 : findBestLift call (l :: ls) = some ri := by
        unfold findBestLift
        rw [heq]
        rfl
      rw [h2] at hi
      have h3 : ri = i := by
        injection hi
      rw [← h3]
      exact hri
  · intro i hi
    cases lifts with
    | nil => simp [findBestLiftV2] at hi
    | cons l ls =>
      obtain ⟨ri, hri, heq, _, _⟩ := bestAux_start (liftScoreV2 t) l ls
      have h2 : findBestLiftV2 t (l :: ls) = some ri := by
        unfold findBestLiftV2
        rw [if_neg (by simp), heq]
        rfl
      rw [h2] at hi
      have h3 : ri = i := by
        injection hi
      rw [← h3]
      exact hri

/-- C9 witness: a lone busy part_001 car yields no selection. -/
theorem selectCar_total_amended_witness :
    part1SelectLift [SLift.mk 0 true] 5 = none :=
  (selectCar_total_amended (Call.mk 0 Dir.up 0) 5 [] [SLift.mk 0 true]).2.2.2.2.mpr
    (by decide)

end LiftSim
